import Mathlib

/-!
Verification of the mn-transcribe-saas transcription worker core
(`backend/worker.py`, `backend/service.py`).

Modelling conventions:
* Python strings are modelled as `List Char` (Python strings are sequences of
  Unicode code points, and `len`, indexing and `str.strip` act on code points).
* Python floats are modelled as rationals (`ℚ`); all float operations used by
  the verified code paths are comparisons, additions, subtractions,
  multiplication by 1000 and division of small integers, for which the
  rational model agrees with IEEE double behaviour at every input considered.
* `str.isdigit` is modelled over ASCII decimal digits, which covers every
  token class the noise filter is concerned with (the backend's spurious
  numeric tokens are ASCII).
-/

namespace MnSaas

/-! ## Words of the worker pipeline (`worker.py` dicts `{"word","start","end"}`) -/

structure Word where
  word : List Char
  start : ℚ
  end_ : ℚ
deriving DecidableEq, Repr, Inhabited

/-- Source: `PUNCT_END = {".", "?", "!"}` in `worker.py`. -/
def PUNCT_END : List Char := ['.', '?', '!']

/-- Source: `" ".join(x["word"] for x in cur)` in `segment_words_to_cues`. -/
def joinChars (ws : List Word) : List Char :=
  List.intercalate [' '] (ws.map Word.word)

/-- The break condition evaluated in the loop body of `segment_words_to_cues`
(`worker.py` lines 180-188): `gap >= pause_gap or prev_ends_sentence or
would_exceed_chars or would_exceed_dur`. -/
def shouldBreak (pause_gap max_duration : ℚ) (max_chars : ℕ)
    (cur : List Word) (prev w : Word) : Bool :=
  let gap := w.start - prev.end_
  let cur_text := joinChars cur
  let prev_ends_sentence := !prev.word.isEmpty && decide (prev.word.getLastD ' ' ∈ PUNCT_END)
  let would_exceed_chars := decide (cur_text.length + 1 + w.word.length > max_chars)
  let would_exceed_dur := decide (w.end_ - (cur.headI).start > max_duration)
  decide (gap ≥ pause_gap) || prev_ends_sentence || would_exceed_chars || would_exceed_dur

/-- The `for prev, w in zip(words, words[1:])` loop of `segment_words_to_cues`:
`cur` is the pending cue, `prev` the previously processed word, the third
argument the remaining words; after the loop `cues.append(cur)` emits the
final pending group. -/
def segRecAux (pause_gap max_duration : ℚ) (max_chars : ℕ) :
    List Word → Word → List Word → List (List Word)
  | cur, _, [] => [cur]
  | cur, prev, w :: rest =>
    if shouldBreak pause_gap max_duration max_chars cur prev w then
      cur :: segRecAux pause_gap max_duration max_chars [w] w rest
    else
      segRecAux pause_gap max_duration max_chars (cur ++ [w]) w rest

/-- Source: `segment_words_to_cues(words, pause_gap=0.75, max_duration=6.0,
max_chars=84)` in `worker.py` (returns `[]` for empty input, otherwise starts
with `cur = [words[0]]`). -/
def segment_words_to_cues (pause_gap max_duration : ℚ) (max_chars : ℕ) :
    List Word → List (List Word)
  | [] => []
  | w :: rest => segRecAux pause_gap max_duration max_chars [w] w rest

theorem segRecAux_flatten (pg md : ℚ) (mc : ℕ) :
    ∀ (rest cur : List Word) (prev : Word),
      (segRecAux pg md mc cur prev rest).flatten = cur ++ rest := by
  intro rest
  induction rest with
  | nil => intro cur prev; simp [segRecAux]
  | cons w rest ih =>
    intro cur prev
    by_cases h : shouldBreak pg md mc cur prev w
    · simp [segRecAux, h, ih]
    · simp [segRecAux, h, ih]

theorem segRecAux_ne_nil (pg md : ℚ) (mc : ℕ) :
    ∀ (rest cur : List Word) (prev : Word), cur ≠ [] →
      ∀ c ∈ segRecAux pg md mc cur prev rest, c ≠ [] := by
  intro rest
  induction rest with
  | nil =>
    intro cur prev hcur c hc
    simp only [segRecAux, List.mem_singleton] at hc
    simpa [hc] using hcur
  | cons w rest ih =>
    intro cur prev hcur c hc
    by_cases h : shouldBreak pg md mc cur prev w
    · simp only [segRecAux, h, if_true, List.mem_cons] at hc
      rcases hc with rfl | hc
      · exact hcur
      · exact ih [w] w (by simp) c hc
    · simp only [segRecAux, h, if_false] at hc
      exact ih (cur ++ [w]) w (by simp) c hc

/-- C1: for every word list given to `segment_words_to_cues` (any pause, max
duration, max character parameters), the returned cues partition the input
exactly — concatenating the cues in order yields the input word list, every
cue is a non-empty contiguous run — and the empty input yields zero cues. -/
theorem segment_words_to_cues_partitions (pg md : ℚ) (mc : ℕ) (words : List Word) :
    (segment_words_to_cues pg md mc words).flatten = words ∧
    (∀ c ∈ segment_words_to_cues pg md mc words, c ≠ []) ∧
    segment_words_to_cues pg md mc [] = [] := by
  refine ⟨?_, ?_, rfl⟩
  · cases words with
    | nil => rfl
    | cons w rest =>
      simpa [segment_words_to_cues] using segRecAux_flatten pg md mc rest [w] w
  · cases words with
    | nil => simp [segment_words_to_cues]
    | cons w rest =>
      exact segRecAux_ne_nil pg md mc rest [w] w (by simp)

/-! ## The break rule as the specification words it (C2) -/

/-- Specification wording: the cue's last word's text ends with a
sentence-terminal punctuation mark. -/
def endsSentence (l : List Char) : Prop :=
  ['.'] <:+ l ∨ ['?'] <:+ l ∨ ['!'] <:+ l

theorem singleton_suffix_iff (c : Char) (l : List Char) :
    [c] <:+ l ↔ l.getLast? = some c := by
  constructor
  · rintro ⟨t, rfl⟩
    simp
  · intro h
    cases l with
    | nil => simp at h
    | cons a as =>
      have hne : a :: as ≠ [] := by simp
      have h3 : (a :: as).getLast hne = c := by
        have h2 := List.getLast?_eq_getLast (a :: as) hne
        rw [h2] at h
        exact Option.some.inj h
      refine ⟨(a :: as).dropLast, ?_⟩
      rw [← h3]
      exact List.dropLast_append_getLast hne

theorem punct_check_iff (l : List Char) :
    (!l.isEmpty && decide (l.getLastD ' ' ∈ PUNCT_END)) = true ↔ endsSentence l := by
  cases l with
  | nil =>
    simp [endsSentence]
  | cons a as =>
    have hne : a :: as ≠ [] := by simp
    have hlast : (a :: as).getLastD ' ' = (a :: as).getLast hne := by
      rw [List.getLastD_eq_getLast?, List.getLast?_eq_getLast _ hne]
      rfl
    have hsome : (a :: as).getLast? = some ((a :: as).getLast hne) :=
      List.getLast?_eq_getLast _ hne
    simp only [List.isEmpty_cons, Bool.not_false, Bool.true_and, decide_eq_true_eq,
      endsSentence, singleton_suffix_iff, hsome, hlast, Option.some.injEq, PUNCT_END,
      List.mem_cons, List.mem_singleton, List.not_mem_nil, or_false]

/-- C2: with the default parameters (pause 0.75s, max duration 6.0s, max 84
characters), the segmenter's break condition after the current word `prev`
(the pending cue's last word) holds if and only if: the gap `w.start -
prev.end` is ≥ 0.75, or `prev`'s text ends with `.`, `?` or `!`, or appending
`w` would make the space-joined cue text exceed 84 characters, or `w.end`
minus the pending cue's first word's start would exceed 6.0 seconds. -/
theorem cue_break_rule_iff (cur : List Word) (prev w : Word) (h : cur ≠ []) :
    shouldBreak (3/4) 6 84 cur prev w = true ↔
      ((3 : ℚ)/4 ≤ w.start - prev.end_ ∨
        endsSentence prev.word ∨
        84 < (joinChars cur).length + 1 + w.word.length ∨
        6 < w.end_ - (cur.head h).start) := by
  have hhead : cur.headI = cur.head h := by
    cases cur with
    | nil => exact absurd rfl h
    | cons a as => rfl
  simp only [shouldBreak, hhead, Bool.or_eq_true, decide_eq_true_eq, ge_iff_le,
    punct_check_iff]
  tauto

def exWordA : Word := ⟨"Za.".toList, 0, 1⟩
def exWordB : Word := ⟨"x".toList, 2, 3⟩

/-- Witness for C2 at a concrete pending cue. -/
theorem cue_break_rule_iff_witness :
    shouldBreak (3/4) 6 84 [exWordA] exWordA exWordB = true ↔
      ((3 : ℚ)/4 ≤ exWordB.start - exWordA.end_ ∨
        endsSentence exWordA.word ∨
        84 < (joinChars [exWordA]).length + 1 + exWordB.word.length ∨
        6 < exWordB.end_ - (([exWordA] : List Word).head (by simp)).start) :=
  cue_break_rule_iff [exWordA] exWordA exWordB (by simp)

/-! ## service.py word tuples `(word, start_sec, end_sec)` and the noise filter -/

/-- Word tuples of `service.py`: `(text, start_sec, end_sec)`. -/
abbrev PyWord := List Char × ℚ × ℚ

/-- Python `str.strip()`: remove leading and trailing whitespace. -/
def stripChars (l : List Char) : List Char :=
  ((l.dropWhile Char.isWhitespace).reverse.dropWhile Char.isWhitespace).reverse

/-- Python `str.isdigit()` over the token alphabet relevant here (ASCII
decimal digits): nonempty and all characters digits. -/
def pyIsdigit (l : List Char) : Bool :=
  !l.isEmpty && l.all Char.isDigit

/-- Python `set(t) == {"0"}`: nonempty and every character is `0`. -/
def allZeroChars (l : List Char) : Bool :=
  !l.isEmpty && l.all (fun c => c == '0')

/-- Source: `filter_garbage_words` in `service.py` lines 151-162. Note the
code first skips empty/whitespace-only texts, then strips the text and drops
it when the stripped text is all digits or all zeros; a kept word carries the
stripped text. -/
def filter_garbage_words : List PyWord → List PyWord
  | [] => []
  | (w, s, e) :: rest =>
    if w.isEmpty || (stripChars w).isEmpty then filter_garbage_words rest
    else
      let t := stripChars w
      if pyIsdigit t then filter_garbage_words rest
      else if allZeroChars t then filter_garbage_words rest
      else (t, s, e) :: filter_garbage_words rest

/-- Source: `looks_like_zero_gibberish(words, sample_n=60)` in `service.py`
lines 164-169: sample the first `sample_n` word texts, return false on an
empty sample, else test `zeros / len(sample) > 0.6`. -/
def looks_like_zero_gibberish (sample_n : ℕ) (words : List PyWord) : Bool :=
  if ((words.take sample_n).map (fun x => x.1)).isEmpty then false
  else
    decide (((((words.take sample_n).map (fun x => x.1)).countP
        (fun t => pyIsdigit t || allZeroChars t) : ℕ) : ℚ) /
      ((((words.take sample_n).map (fun x => x.1)).length : ℕ) : ℚ) > 3/5)

/-- Routing of `transcribe_to_srt_string` when the backend returned word
timestamps (`service.py` lines 234-239): the words are first passed through
`filter_garbage_words`, and gibberish detection is evaluated on that
filtered list; `true` selects the degraded fixed-duration-block rendering. -/
def usesDegradedBlocks (resultWords : List PyWord) : Bool :=
  looks_like_zero_gibberish 60 (filter_garbage_words resultWords)

/-- The routing as C3 and §4.6 of the specification describe it: gibberish
detection computed from the raw backend word list, before per-word
filtering. -/
def usesDegradedBlocksSpec (resultWords : List PyWord) : Bool :=
  looks_like_zero_gibberish 60 resultWords

theorem filter_garbage_words_not_garbage :
    ∀ (ws : List PyWord), ∀ x ∈ filter_garbage_words ws,
      (pyIsdigit x.1 || allZeroChars x.1) = false := by
  intro ws
  induction ws with
  | nil => simp [filter_garbage_words]
  | cons p rest ih =>
    obtain ⟨w, s, e⟩ := p
    intro x hx
    simp only [filter_garbage_words] at hx
    split_ifs at hx with h1 h2 h3
    · exact ih x hx
    · exact ih x hx
    · exact ih x hx
    · rcases List.mem_cons.mp hx with rfl | hx2
      · simp only [Bool.or_eq_false_iff]
        exact ⟨Bool.not_eq_true _ ▸ eq_false_of_ne_true h2,
               Bool.not_eq_true _ ▸ eq_false_of_ne_true h3⟩
      · exact ih x hx2

/-- The gibberish test, reduced to an integer comparison on the sample: true
iff the sample is nonempty and the garbage count exceeds 3/5 of it. -/
theorem looks_gibberish_iff (n : ℕ) (words : List PyWord) :
    looks_like_zero_gibberish n words = true ↔
      ((words.take n).map (fun x => x.1)) ≠ [] ∧
        3 * ((words.take n).map (fun x => x.1)).length <
          5 * ((words.take n).map (fun x => x.1)).countP
            (fun t => pyIsdigit t || allZeroChars t) := by
  unfold looks_like_zero_gibberish
  by_cases h : (((words.take n).map (fun x => x.1))).isEmpty
  · rw [if_pos h]
    simp [List.isEmpty_iff.mp h]
  · rw [if_neg h]
    have hne : ((words.take n).map (fun x => x.1)) ≠ [] := by
      simpa [List.isEmpty_iff] using h
    have hlen : 0 < (((words.take n).map (fun x => x.1)).length : ℚ) := by
      exact_mod_cast List.length_pos.mpr hne
    rw [decide_eq_true_eq, gt_iff_lt,
      div_lt_div_iff₀ (by norm_num : (0:ℚ) < 5) hlen]
    constructor
    · intro h2
      refine ⟨hne, ?_⟩
      exact_mod_cast (by linarith :
        (3 : ℚ) * ((words.take n).map (fun x => x.1)).length <
          5 * ((words.take n).map (fun x => x.1)).countP
            (fun t => pyIsdigit t || allZeroChars t))
    · rintro ⟨-, h2⟩
      have h3 : (3 : ℚ) * ((words.take n).map (fun x => x.1)).length <
          5 * ((words.take n).map (fun x => x.1)).countP
            (fun t => pyIsdigit t || allZeroChars t) := by exact_mod_cast h2
      linarith

/-! ## C3: gibberish detection runs on the filtered list, making it dead code -/

/-- A raw backend word list of 60 all-zero tokens. -/
def gibberishSixty : List PyWord := List.replicate 60 ("0".toList, 0, 1)

/-- C3 (code bug): `transcribe_to_srt_string` computes `looks_like_zero_
gibberish` on the output of `filter_garbage_words`, not on the raw list; the
filter removes every all-digit/all-zero token, so the degraded classification
is never triggered on any input — in particular 60 raw `"0"` tokens are
degraded per the specification's routing but not per the code's. -/
theorem gibberish_detection_dead_code :
    (∀ resultWords : List PyWord, usesDegradedBlocks resultWords = false) ∧
    usesDegradedBlocksSpec gibberishSixty = true ∧
    usesDegradedBlocks gibberishSixty = false := by
  have main : ∀ resultWords : List PyWord, usesDegradedBlocks resultWords = false := by
    intro ws
    have hcount : (((filter_garbage_words ws).take 60).map (fun x => x.1)).countP
        (fun t => pyIsdigit t || allZeroChars t) = 0 := by
      rw [List.countP_eq_zero]
      intro t ht
      obtain ⟨x, hx, rfl⟩ := List.mem_map.mp ht
      have hx2 : x ∈ filter_garbage_words ws := List.mem_of_mem_take hx
      simpa using filter_garbage_words_not_garbage ws x hx2
    rw [usesDegradedBlocks, ← Bool.not_eq_true, looks_gibberish_iff, hcount]
    rintro ⟨-, h2⟩
    omega
  refine ⟨main, ?_, main gibberishSixty⟩
  rw [usesDegradedBlocksSpec, looks_gibberish_iff]
  exact ⟨by decide, by decide⟩

/-! ## C4: the gibberish decision boundary on a 60-word sample -/

/-- A word list whose first-60-word sample holds exactly 36 all-digit tokens. -/
def sample36 : List PyWord :=
  List.replicate 36 ("0".toList, 0, 1) ++ List.replicate 24 ("ab".toList, 0, 1)

/-- A word list whose first-60-word sample holds exactly 37 all-digit tokens. -/
def sample37 : List PyWord :=
  List.replicate 37 ("7".toList, 0, 1) ++ List.replicate 23 ("ab".toList, 0, 1)

/-- C4 counterexample: a 60-word sample with exactly 36 all-digit tokens is
classified as not gibberish (36/60 = 0.6 is not strictly greater than 0.6),
contradicting the claim that at least 36 of 60 yields true. -/
theorem gibberish_at_36_of_60_is_false :
    ((sample36.take 60).map (fun x => x.1)).length = 60 ∧
    ((sample36.take 60).map (fun x => x.1)).countP
      (fun t => pyIsdigit t || allZeroChars t) = 36 ∧
    looks_like_zero_gibberish 60 sample36 = false := by
  refine ⟨by decide, by decide, ?_⟩
  rw [← Bool.not_eq_true, looks_gibberish_iff]
  rintro ⟨-, h⟩
  rw [(by decide : ((sample36.take 60).map (fun x => x.1)).countP
      (fun t => pyIsdigit t || allZeroChars t) = 36),
    (by decide : ((sample36.take 60).map (fun x => x.1)).length = 60)] at h
  omega

/-- C4 (amended): on a full 60-word sample, `looks_like_zero_gibberish`
returns true iff strictly more than 36 sampled tokens are all-digit or
all-`0` — so 37 of 60 yields true while 36 of 60 and 35 of 60 yield false;
the decision boundary is strictly greater than 0.6 of the sampled words. -/
theorem gibberish_boundary_of_sample_60 (words : List PyWord)
    (h : ((words.take 60).map (fun x => x.1)).length = 60) :
    looks_like_zero_gibberish 60 words = true ↔
      36 < ((words.take 60).map (fun x => x.1)).countP
        (fun t => pyIsdigit t || allZeroChars t) := by
  rw [looks_gibberish_iff, h]
  constructor
  · rintro ⟨-, h2⟩
    omega
  · intro h2
    have hne : ((words.take 60).map (fun x => x.1)) ≠ [] := by
      intro hnil
      rw [hnil] at h
      simp at h
    exact ⟨hne, by omega⟩

/-- Witness for C4's amended boundary at a 37-of-60 sample. -/
theorem gibberish_boundary_of_sample_60_witness :
    looks_like_zero_gibberish 60 sample37 = true ↔
      36 < ((sample37.take 60).map (fun x => x.1)).countP
        (fun t => pyIsdigit t || allZeroChars t) :=
  gibberish_boundary_of_sample_60 sample37 (by decide)

/-! ## C9: the per-word noise filter -/

/-- The drop condition exactly as C9 words it, evaluated on the word's own
text: empty or whitespace-only, solely digits, or solely the character 0. -/
def dropCondClaim (w : List Char) : Bool :=
  (stripChars w).isEmpty || pyIsdigit w || allZeroChars w

/-- The filter exactly as C9 words it: drop per `dropCondClaim`, keep all
other words unchanged. -/
def filterClaim (ws : List PyWord) : List PyWord :=
  ws.filter (fun x => !dropCondClaim x.1)

/-- C9 counterexample: the word text " 5 " is neither empty/whitespace-only
nor solely digits nor solely zeros, so the claim's condition keeps it; the
code strips it to "5" first and drops it. -/
theorem filter_garbage_words_drops_padded_digit :
    filter_garbage_words [(" 5 ".toList, 0, 1)] = [] ∧
    dropCondClaim (" 5 ".toList) = false ∧
    filterClaim [(" 5 ".toList, 0, 1)] = [(" 5 ".toList, 0, 1)] := by
  decide

/-- C9 (amended): `filter_garbage_words` drops a word iff its
whitespace-stripped text is empty, consists solely of digits, or consists
solely of `0`s; every kept word appears in order with its timestamps and with
its text stripped of surrounding whitespace. In particular
`[("0",0,1), ("5",1,2), ("хэлло",2,3)]` yields `[("хэлло",2,3)]`. -/
theorem filter_garbage_words_spec (ws : List PyWord) :
    filter_garbage_words ws = ws.filterMap (fun x =>
      if (stripChars x.1).isEmpty || pyIsdigit (stripChars x.1)
          || allZeroChars (stripChars x.1) then none
      else some (stripChars x.1, x.2.1, x.2.2)) ∧
    filter_garbage_words [("0".toList, 0, 1), ("5".toList, 1, 2), ("хэлло".toList, 2, 3)]
      = [("хэлло".toList, 2, 3)] := by
  refine ⟨?_, by decide⟩
  induction ws with
  | nil => rfl
  | cons p rest ih =>
    obtain ⟨w, s, e⟩ := p
    have hempty : (w.isEmpty || (stripChars w).isEmpty) = (stripChars w).isEmpty := by
      cases hw : w.isEmpty
      · rfl
      · have : w = [] := List.isEmpty_iff.mp hw
        subst this
        rfl
    simp only [filter_garbage_words, List.filterMap_cons, hempty]
    by_cases h0 : (stripChars w).isEmpty
    · rw [if_pos h0, if_pos (show ((stripChars w).isEmpty || pyIsdigit (stripChars w)
        || allZeroChars (stripChars w)) = true by simp [h0])]
      exact ih
    · by_cases h1 : pyIsdigit (stripChars w)
      · rw [if_neg h0, if_pos h1, if_pos (show ((stripChars w).isEmpty
          || pyIsdigit (stripChars w) || allZeroChars (stripChars w)) = true by simp [h1])]
        exact ih
      · by_cases h2 : allZeroChars (stripChars w)
        · rw [if_neg h0, if_neg h1, if_pos h2, if_pos (show ((stripChars w).isEmpty
            || pyIsdigit (stripChars w) || allZeroChars (stripChars w)) = true by simp [h2])]
          exact ih
        · rw [if_neg h0, if_neg h1, if_neg h2, if_neg (show ¬ (((stripChars w).isEmpty
            || pyIsdigit (stripChars w) || allZeroChars (stripChars w)) = true) by
              simp [h0, h1, h2])]
          rw [ih]

/-! ## C8: the subtitle timestamp formatter `srt_timestamp` (worker.py 166-171) -/

/-- Python `int(t)`: truncation toward zero. -/
def pyTrunc (x : ℚ) : ℤ :=
  if 0 ≤ x then ⌊x⌋ else -⌊-x⌋

/-- Python `round(x)` to an integer: round half to even. -/
def pyRound (x : ℚ) : ℤ :=
  if Int.fract x < 1/2 then ⌊x⌋
  else if 1/2 < Int.fract x then ⌊x⌋ + 1
  else if ⌊x⌋ % 2 = 0 then ⌊x⌋ else ⌊x⌋ + 1

/-- Decimal digit characters of a natural number. -/
def natDecimal (n : ℕ) : List Char := Nat.toDigits 10 n

/-- Python `f"{n:0wd}"`: decimal digits left-padded with zeros to width `w`
(more digits than `w` are kept in full; a negative number carries its minus
sign inside the width). -/
def pyFmt0d (width : ℕ) (n : ℤ) : List Char :=
  if n < 0 then
    '-' :: (List.replicate (width - 1 - (natDecimal n.natAbs).length) '0'
      ++ natDecimal n.natAbs)
  else
    List.replicate (width - (natDecimal n.toNat).length) '0' ++ natDecimal n.toNat

/-- Source: `srt_timestamp` in `worker.py`: `ms = int(round((t - int(t)) *
1000))`, `s = int(t) % 60`, `m = (int(t) // 60) % 60`, `h = int(t) // 3600`,
rendered as `f"{h:02d}:{m:02d}:{s:02d},{ms:03d}"` (Python `//` is floor
division and `%` a nonnegative remainder for positive divisors). -/
def srt_timestamp (t : ℚ) : List Char :=
  pyFmt0d 2 ((pyTrunc t).fdiv 3600) ++ [':'] ++
  pyFmt0d 2 (((pyTrunc t).fdiv 60).emod 60) ++ [':'] ++
  pyFmt0d 2 ((pyTrunc t).emod 60) ++ [','] ++
  pyFmt0d 3 (pyRound ((t - (pyTrunc t : ℚ)) * 1000))

/-- C8 (code bug): at t = 1.9996 the rounded millisecond value is 1000, so
the rendered timestamp is `00:00:01,1000` — a four-digit millisecond field
outside 0–999 and not the nearest-millisecond rendering `00:00:02,000`
required by the claimed `HH:MM:SS,mmm` format. -/
theorem srt_timestamp_overflows_millis :
    srt_timestamp (4999/2500) = "00:00:01,1000".toList ∧
    pyRound (((4999:ℚ)/2500 - (pyTrunc ((4999:ℚ)/2500) : ℚ)) * 1000) = 1000 := by
  have htr : pyTrunc ((4999:ℚ)/2500) = 1 := by
    rw [pyTrunc, if_pos (by norm_num : (0:ℚ) ≤ 4999/2500)]
    rw [Int.floor_eq_iff]
    norm_num
  have harg : (((4999:ℚ)/2500 - 1) * 1000) = 4998/5 := by norm_num
  have hfl : ⌊(4998/5 : ℚ)⌋ = 999 := by
    rw [Int.floor_eq_iff]
    norm_num
  have hfract : Int.fract ((4998:ℚ)/5) = 3/5 := by
    unfold Int.fract
    rw [hfl]
    norm_num
  have hround : pyRound ((4998:ℚ)/5) = 1000 := by
    unfold pyRound
    rw [hfract, hfl, if_neg (by norm_num), if_pos (by norm_num)]
    norm_num
  constructor
  · unfold srt_timestamp
    rw [htr]
    push_cast
    rw [harg, hround]
    decide
  · rw [htr]
    push_cast
    rw [harg, hround]

/-! ## C7: the chunking loop of `process` (worker.py 349-363) -/

/-- The `while start < total_dur` loop of `process`: each iteration takes
`chunk_dur = min(CHUNK_SEC, total_dur - start)`, emits the chunk
`(start, chunk_dur)` and advances `start += chunk_dur`. The fuel argument
only bounds the iteration count; any fuel with `total ≤ fuel · chunkSec`
lets the loop run to completion. -/
def chunkLoop : ℕ → ℚ → ℚ → ℚ → List (ℚ × ℚ)
  | 0, _, _, _ => []
  | fuel + 1, chunkSec, start, total =>
    if start < total then
      (start, min chunkSec (total - start)) ::
        chunkLoop fuel chunkSec (start + min chunkSec (total - start)) total
    else []

/-- No gaps, no overlaps: the first chunk starts at `s` and each next offset
is the previous offset plus the previous duration. -/
def consecutiveFrom (s : ℚ) : List (ℚ × ℚ) → Prop
  | [] => True
  | c :: rest => c.1 = s ∧ consecutiveFrom (s + c.2) rest

theorem chunkLoop_spec (chunkSec : ℚ) (hc : 0 < chunkSec) :
    ∀ (fuel : ℕ) (start total : ℚ), start ≤ total →
      total - start ≤ (fuel : ℚ) * chunkSec →
      consecutiveFrom start (chunkLoop fuel chunkSec start total) ∧
      ((chunkLoop fuel chunkSec start total).map Prod.snd).sum = total - start ∧
      ∀ c ∈ chunkLoop fuel chunkSec start total, 0 < c.2 ∧ c.2 ≤ chunkSec := by
  intro fuel
  induction fuel with
  | zero =>
    intro start total h1 h2
    refine ⟨trivial, ?_, by simp [chunkLoop]⟩
    simp only [chunkLoop, List.map_nil, List.sum_nil]
    simp only [Nat.cast_zero, zero_mul] at h2
    linarith
  | succ n ih =>
    intro start total h1 h2
    by_cases h : start < total
    · have hmin_pos : 0 < min chunkSec (total - start) := lt_min hc (by linarith)
      have hmin_le : min chunkSec (total - start) ≤ total - start := min_le_right _ _
      have h1' : start + min chunkSec (total - start) ≤ total := by linarith
      have h2' : total - (start + min chunkSec (total - start)) ≤ (n : ℚ) * chunkSec := by
        rcases le_total chunkSec (total - start) with hle | hle
        · rw [min_eq_left hle]
          push_cast at h2
          linarith
        · rw [min_eq_right hle]
          have : total - (start + (total - start)) = 0 := by ring
          rw [this]
          positivity
      obtain ⟨ihc, ihs, ihb⟩ := ih (start + min chunkSec (total - start)) total h1' h2'
      rw [chunkLoop, if_pos h]
      refine ⟨⟨rfl, ihc⟩, ?_, ?_⟩
      · rw [List.map_cons, List.sum_cons, ihs]
        ring
      · intro c hc2
        rcases List.mem_cons.mp hc2 with rfl | hc2
        · exact ⟨hmin_pos, min_le_left _ _⟩
        · exact ihb c hc2
    · rw [chunkLoop, if_neg h]
      refine ⟨trivial, ?_, by simp⟩
      simp only [List.map_nil, List.sum_nil]
      have : total ≤ start := not_lt.mp h
      linarith

/-- C7: for every positive total duration and maximum chunk duration (with
enough loop fuel), the chunk loop covers the audio with no gaps and no
overlaps — offsets start at 0, each next offset is the previous offset plus
the previous duration, every duration is positive and at most the maximum,
and the durations sum to the total; in particular 130 seconds at maximum 58
yields exactly the chunks (0,58), (58,58), (116,14). -/
theorem chunking_covers_exactly (total chunkSec : ℚ) (fuel : ℕ)
    (h1 : 0 < total) (h2 : 0 < chunkSec) (h3 : total ≤ (fuel : ℚ) * chunkSec) :
    (consecutiveFrom 0 (chunkLoop fuel chunkSec 0 total) ∧
      ((chunkLoop fuel chunkSec 0 total).map Prod.snd).sum = total ∧
      ∀ c ∈ chunkLoop fuel chunkSec 0 total, 0 < c.2 ∧ c.2 ≤ chunkSec) ∧
    chunkLoop 3 58 0 130 = [(0, 58), (58, 58), (116, 14)] := by
  constructor
  · have hmain := chunkLoop_spec chunkSec h2 fuel 0 total (le_of_lt h1) (by simpa using h3)
    simpa using hmain
  · have e1 : chunkLoop 3 58 0 130 = (0, 58) :: chunkLoop 2 58 58 130 := by
      rw [chunkLoop, if_pos (by norm_num : (0:ℚ) < 130)]
      norm_num [min_def]
    have e2 : chunkLoop 2 58 58 130 = (58, 58) :: chunkLoop 1 58 116 130 := by
      rw [chunkLoop, if_pos (by norm_num : (58:ℚ) < 130)]
      norm_num [min_def]
    have e3 : chunkLoop 1 58 116 130 = [(116, 14)] := by
      rw [show (1:ℕ) = 0 + 1 from rfl, chunkLoop, if_pos (by norm_num : (116:ℚ) < 130)]
      norm_num [min_def, chunkLoop]
    rw [e1, e2, e3]

/-- Witness for C7 at total 130s, maximum 58s, fuel 3. -/
theorem chunking_covers_exactly_witness :
    (consecutiveFrom 0 (chunkLoop 3 58 0 130) ∧
      ((chunkLoop 3 58 0 130).map Prod.snd).sum = 130 ∧
      ∀ c ∈ chunkLoop 3 58 0 130, 0 < c.2 ∧ c.2 ≤ 58) ∧
    chunkLoop 3 58 0 130 = [(0, 58), (58, 58), (116, 14)] :=
  chunking_covers_exactly 130 58 3 (by norm_num) (by norm_num) (by norm_num)

/-! ## C6: per-chunk transcription and timeline stitching -/

/-- Source: the word-collection tail of `_transcribe_wav_sync_words`
(worker.py 144-161): every backend word is shifted by `chunk_start_sec` and
the chunk's word list is then sorted by (shifted) start time. Python's
`list.sort` is stable, as is `List.mergeSort`, and a stable sort by a total
preorder is uniquely determined, so the two agree. -/
def transcribeChunkWords (chunk_start_sec : ℚ) (backendWords : List Word) : List Word :=
  (backendWords.map (fun w =>
    ⟨w.word, chunk_start_sec + w.start, chunk_start_sec + w.end_⟩)).mergeSort
    (fun a b => decide (a.start ≤ b.start))

/-- One chunk's recognition output: the chunk duration from the chunk loop
and the backend word list with timestamps relative to chunk start. -/
structure ChunkResult where
  dur : ℚ
  words : List Word

/-- The stitching loop of `process` (worker.py 349-363): chunks are
transcribed in ascending offset order at the running offset `start`, their
word lists concatenated, and `start` advanced by the chunk duration. -/
def stitchWords : ℚ → List ChunkResult → List Word
  | _, [] => []
  | start, c :: rest =>
    transcribeChunkWords start c.words ++ stitchWords (start + c.dur) rest

theorem transcribeChunkWords_sorted (s : ℚ) (ws : List Word) :
    (transcribeChunkWords s ws).Pairwise (fun a b => a.start ≤ b.start) := by
  have h := @List.sorted_mergeSort Word
    (fun a b : Word => decide (a.start ≤ b.start))
    (fun a b c hab hbc => by
      simp only [decide_eq_true_eq] at *
      exact le_trans hab hbc)
    (fun a b => by
      simp only [Bool.or_eq_true, decide_eq_true_eq]
      exact le_total a.start b.start)
    (ws.map (fun w => ⟨w.word, s + w.start, s + w.end_⟩))
  exact h.imp (fun hab => by simpa using hab)

theorem mem_transcribeChunkWords {s : ℚ} {ws : List Word} {x : Word}
    (hx : x ∈ transcribeChunkWords s ws) :
    ∃ w ∈ ws, x.start = s + w.start := by
  rw [transcribeChunkWords, List.mem_mergeSort] at hx
  obtain ⟨w, hw, rfl⟩ := List.mem_map.mp hx
  exact ⟨w, hw, rfl⟩

theorem stitchWords_lower_bound (chunks : List ChunkResult) :
    ∀ (s : ℚ),
      (∀ c ∈ chunks, 0 ≤ c.dur ∧ ∀ w ∈ c.words, 0 ≤ w.start ∧ w.start ≤ c.dur) →
      ∀ x ∈ stitchWords s chunks, s ≤ x.start := by
  induction chunks with
  | nil => intro s _ x hx; simp [stitchWords] at hx
  | cons c rest ih =>
    intro s h x hx
    rw [stitchWords] at hx
    rcases List.mem_append.mp hx with hx | hx
    · obtain ⟨w, hw, hstart⟩ := mem_transcribeChunkWords hx
      have hw0 : 0 ≤ w.start := ((h c (List.mem_cons_self c rest)).2 w hw).1
      rw [hstart]
      linarith
    · have hdur : 0 ≤ c.dur := (h c (List.mem_cons_self c rest)).1
      have := ih (s + c.dur) (fun c' hc' => h c' (List.mem_cons_of_mem _ hc')) x hx
      linarith

/-- C6: for every sequence of one or more chunks processed in ascending
offset order — each chunk's backend words (with timestamps inside the chunk,
i.e. relative starts in `[0, dur]`) shifted by the chunk's running start
offset and sorted by start time, then concatenated in chunk order — the
stitched job-global word list is monotonic non-decreasing in start time,
including when a backend returns out-of-order words within one chunk. -/
theorem stitched_words_monotone (chunks : List ChunkResult) (s : ℚ)
    (h : ∀ c ∈ chunks, 0 ≤ c.dur ∧ ∀ w ∈ c.words, 0 ≤ w.start ∧ w.start ≤ c.dur) :
    List.Sorted (fun a b => a.start ≤ b.start) (stitchWords s chunks) := by
  induction chunks generalizing s with
  | nil => simp [stitchWords, List.Sorted]
  | cons c rest ih =>
    rw [List.Sorted, stitchWords, List.pairwise_append]
    refine ⟨transcribeChunkWords_sorted s c.words,
      ih (s + c.dur) (fun c' hc' => h c' (List.mem_cons_of_mem _ hc')),
      ?_⟩
    · intro a ha b hb
      obtain ⟨w, hw, hstart⟩ := mem_transcribeChunkWords ha
      have hwb : w.start ≤ c.dur := ((h c (List.mem_cons_self c rest)).2 w hw).2
      have hblow : s + c.dur ≤ b.start :=
        stitchWords_lower_bound rest (s + c.dur)
          (fun c' hc' => h c' (List.mem_cons_of_mem _ hc')) b hb
      rw [hstart]
      linarith

/-- Witness chunk 1: duration 2s, backend words out of order. -/
def chunkOne : ChunkResult :=
  ⟨2, [⟨"b".toList, 1, 2⟩, ⟨"a".toList, 0, 1⟩]⟩

/-- Witness chunk 2: duration 3s, one word. -/
def chunkTwo : ChunkResult := ⟨3, [⟨"c".toList, 0, 1⟩]⟩

/-- Witness for C6 on two concrete chunks, the first out of order. -/
theorem stitched_words_monotone_witness :
    List.Sorted (fun a b : Word => a.start ≤ b.start)
      (stitchWords 0 [chunkOne, chunkTwo]) := by
  refine stitched_words_monotone [chunkOne, chunkTwo] 0 ?_
  intro c hc
  simp only [List.mem_cons, List.not_mem_nil, or_false] at hc
  rcases hc with rfl | rfl
  · refine ⟨by norm_num [chunkOne], ?_⟩
    intro w hw
    simp only [chunkOne, List.mem_cons, List.not_mem_nil, or_false] at hw
    rcases hw with rfl | rfl
    · exact ⟨by norm_num, by norm_num [chunkOne]⟩
    · exact ⟨by norm_num, by norm_num [chunkOne]⟩
  · refine ⟨by norm_num [chunkTwo], ?_⟩
    intro w hw
    simp only [chunkTwo, List.mem_cons, List.not_mem_nil, or_false] at hw
    rcases hw with rfl
    exact ⟨by norm_num, by norm_num [chunkTwo]⟩

/-! ## C5 and C10: the job orchestrator (`process` and `main`, worker.py) -/

inductive JobStatus where
  | queued
  | processing
  | done
  | failed
deriving DecidableEq, Repr

/-- The persisted job record fields the worker touches. -/
structure JobRecord where
  status : JobStatus
  error_msg : Option String
  srt_key : Option String
  duration_sec : Option ℚ
deriving DecidableEq, Repr

/-- Outcomes of the external steps `process` performs, in program order. A
`false` flag means that step fails (for `gcsDownloadOk`, that
`blob.download_to_filename` raises — worker.py 249 has no try/except around
it, unlike the S3 download at 260-265). -/
structure PipeEnv where
  providerGcs : Bool
  gcsBucketSet : Bool
  gcsObjectExists : Bool
  gcsDownloadOk : Bool
  s3HeadOk : Bool
  s3DownloadOk : Bool
  ffmpegOk : Bool
  projectSet : Bool
  getRecognizerOk : Bool
  createRecognizerOk : Bool
  sttOk : Bool
  uploadOk : Bool
  sttErr : String
  uploadErr : String
  outKey : String
  totalDur : ℚ
deriving Repr

/-- Source: `_fail_job` (worker.py 61-70): if the job has an id, set status
`failed` and `error_msg = reason[:4000]`; other fields are untouched. -/
def fail_job (hasId : Bool) (rec : JobRecord) (reason : String) : JobRecord :=
  if hasId then
    ⟨JobStatus.failed, some (reason.take 4000), rec.srt_key, rec.duration_sec⟩
  else rec

/-- How one run of `process` ends: it returned (after its last DB write), or
an uncaught exception propagated with the record in the given state. -/
inductive Outcome where
  | finished (rec : JobRecord)
  | raised (rec : JobRecord)
deriving DecidableEq, Repr

/-- The record state an `Outcome` leaves behind. -/
def Outcome.record : Outcome → JobRecord
  | .finished r => r
  | .raised r => r

/-- The error spine of `process` after a successful download (worker.py
284-417): ffmpeg extraction, project id check, recognizer get/create,
chunked recognition (including the duration probe inside the same try),
upload, then the final done update. -/
def afterDownload (hasId : Bool) (env : PipeEnv) (rec : JobRecord) : Outcome :=
  if env.ffmpegOk = false then
    .finished (fail_job hasId rec "ffmpeg failed")
  else if env.projectSet = false then
    .finished (fail_job hasId rec "stt failed: GCP_PROJECT_ID missing")
  else if (env.getRecognizerOk || env.createRecognizerOk) = false then
    .finished (fail_job hasId rec "stt failed: recognizer create/get failed")
  else if env.sttOk = false then
    .finished (fail_job hasId rec ("stt failed (chunked): " ++ env.sttErr))
  else if env.uploadOk = false then
    .finished (fail_job hasId rec ("upload srt failed: " ++ env.uploadErr))
  else if hasId then
    .finished ⟨JobStatus.done, rec.error_msg, some env.outKey, some env.totalDur⟩
  else .raised rec

/-- Source: `process` (worker.py 219-417). In GCS mode a missing bucket
config or missing object calls `_fail_job` and returns, but a failing
`download_to_filename` raises uncaught; in S3 mode HEAD and download
failures are caught (`ClientError`) and fail the job. -/
def process (hasId : Bool) (env : PipeEnv) (rec : JobRecord) : Outcome :=
  if env.providerGcs then
    if env.gcsBucketSet = false then
      .finished (fail_job hasId rec "GCS_BUCKET missing")
    else if env.gcsObjectExists = false then
      .finished (fail_job hasId rec "gcs object not found")
    else if env.gcsDownloadOk = false then
      .raised rec
    else afterDownload hasId env rec
  else
    if env.s3HeadOk = false then
      .finished (fail_job hasId rec "s3 head failed")
    else if env.s3DownloadOk = false then
      .finished (fail_job hasId rec "s3 download failed")
    else afterDownload hasId env rec

/-- Every step `process` needs to reach the done update succeeds. -/
def pipelineOk (env : PipeEnv) : Bool :=
  (if env.providerGcs then env.gcsBucketSet && env.gcsObjectExists && env.gcsDownloadOk
   else env.s3HeadOk && env.s3DownloadOk) &&
  env.ffmpegOk && env.projectSet && (env.getRecognizerOk || env.createRecognizerOk) &&
  env.sttOk && env.uploadOk

/-- The one unhandled failure point: a GCS download that raises. -/
def gcsDownloadUncaught (env : PipeEnv) : Bool :=
  env.providerGcs && env.gcsBucketSet && env.gcsObjectExists && !env.gcsDownloadOk

/-- A job record as it looks right after the processing mark. -/
def rec0 : JobRecord := ⟨JobStatus.processing, none, none, none⟩

/-- GCS mode, object present, download raises, everything else fine. -/
def envGcsDl : PipeEnv :=
  ⟨true, true, true, false, true, true, true, true, true, true, true, true,
    "", "", "a.srt", 1⟩

/-- C5 counterexample: in GCS mode with the object present, a download
failure raises out of `process` uncaught — the job record is left in status
processing with no error message, never transitioned to failed. -/
theorem gcs_download_failure_leaves_processing :
    process true envGcsDl rec0 = Outcome.raised rec0 ∧
    rec0.status = JobStatus.processing ∧ rec0.error_msg = none ∧
    rec0.srt_key = none := by
  exact ⟨rfl, rfl, rfl, rfl⟩

theorem afterDownload_fails (env : PipeEnv) (rec : JobRecord)
    (h : (env.ffmpegOk && env.projectSet && (env.getRecognizerOk || env.createRecognizerOk)
      && env.sttOk && env.uploadOk) = false) :
    ∃ r, afterDownload true env rec = Outcome.finished (fail_job true rec r) := by
  unfold afterDownload
  by_cases hff : env.ffmpegOk = false
  · rw [if_pos hff]; exact ⟨_, rfl⟩
  · rw [if_neg hff]
    by_cases hpr : env.projectSet = false
    · rw [if_pos hpr]; exact ⟨_, rfl⟩
    · rw [if_neg hpr]
      by_cases hgc : (env.getRecognizerOk || env.createRecognizerOk) = false
      · rw [if_pos hgc]; exact ⟨_, rfl⟩
      · rw [if_neg hgc]
        by_cases hst : env.sttOk = false
        · rw [if_pos hst]; exact ⟨_, rfl⟩
        · rw [if_neg hst]
          by_cases hup : env.uploadOk = false
          · rw [if_pos hup]; exact ⟨_, rfl⟩
          · exfalso
            rw [Bool.not_eq_false] at hff hpr hgc hst hup
            rw [hff, hpr, hgc, hst, hup] at h
            simp at h

/-- C5 (amended): whenever the pipeline hits an unrecoverable error at one of
its handled failure points (missing GCS bucket config, object not found, S3
HEAD/download failure, audio extraction failure, missing project id,
recognizer get+create failure, recognition/probe failure, subtitle upload
failure), `process` ends with the job updated to status failed with a
non-null error_msg equal to the failure reason truncated to 4000 characters,
and the done update is never executed, so srt_key keeps its prior (null)
value. The exception is the GCS download step, whose failure raises uncaught
(see the counterexample). -/
theorem job_failure_persists_failed (env : PipeEnv) (rec : JobRecord)
    (h1 : pipelineOk env = false) (h2 : gcsDownloadUncaught env = false) :
    ∃ r, process true env rec = Outcome.finished (fail_job true rec r) ∧
      (fail_job true rec r).status = JobStatus.failed ∧
      (fail_job true rec r).error_msg = some (r.take 4000) ∧
      (fail_job true rec r).srt_key = rec.srt_key := by
  have hProps : ∀ r : String, (fail_job true rec r).status = JobStatus.failed ∧
      (fail_job true rec r).error_msg = some (r.take 4000) ∧
      (fail_job true rec r).srt_key = rec.srt_key := fun r => ⟨rfl, rfl, rfl⟩
  unfold process
  by_cases hpg : env.providerGcs = true
  · rw [if_pos hpg]
    by_cases hgb : env.gcsBucketSet = false
    · rw [if_pos hgb]; exact ⟨_, rfl, hProps _⟩
    · rw [if_neg hgb]
      rw [Bool.not_eq_false] at hgb
      by_cases hge : env.gcsObjectExists = false
      · rw [if_pos hge]; exact ⟨_, rfl, hProps _⟩
      · rw [if_neg hge]
        rw [Bool.not_eq_false] at hge
        by_cases hgd : env.gcsDownloadOk = false
        · exfalso
          rw [gcsDownloadUncaught, hpg, hgb, hge, hgd] at h2
          simp at h2
        · rw [if_neg hgd]
          rw [Bool.not_eq_false] at hgd
          rw [pipelineOk, if_pos hpg, hgb, hge, hgd] at h1
          simp only [Bool.true_and, Bool.and_assoc] at h1
          obtain ⟨r, hr⟩ := afterDownload_fails env rec (by
            simp only [Bool.and_assoc]
            exact h1)
          exact ⟨r, hr, hProps r⟩
  · rw [if_neg hpg]
    by_cases hsh : env.s3HeadOk = false
    · rw [if_pos hsh]; exact ⟨_, rfl, hProps _⟩
    · rw [if_neg hsh]
      rw [Bool.not_eq_false] at hsh
      by_cases hsd : env.s3DownloadOk = false
      · rw [if_pos hsd]; exact ⟨_, rfl, hProps _⟩
      · rw [if_neg hsd]
        rw [Bool.not_eq_false] at hsd
        rw [pipelineOk, if_neg hpg, hsh, hsd] at h1
        simp only [Bool.true_and, Bool.and_assoc] at h1
        obtain ⟨r, hr⟩ := afterDownload_fails env rec (by
          simp only [Bool.and_assoc]
          exact h1)
        exact ⟨r, hr, hProps r⟩

/-- S3 (minio) mode with a failing HEAD request, everything else fine. -/
def envHeadFail : PipeEnv :=
  ⟨false, true, true, true, false, true, true, true, true, true, true, true,
    "", "", "out.srt", 130⟩

/-- Witness for C5's amended theorem: an S3 HEAD failure fails the job. -/
theorem job_failure_persists_failed_witness :
    ∃ r, process true envHeadFail rec0 = Outcome.finished (fail_job true rec0 r) ∧
      (fail_job true rec0 r).status = JobStatus.failed ∧
      (fail_job true rec0 r).error_msg = some (r.take 4000) ∧
      (fail_job true rec0 r).srt_key = rec0.srt_key :=
  job_failure_persists_failed envHeadFail rec0 rfl rfl

/-- A parsed queue message: whether `job.get("job_id")` is present/truthy. -/
structure JobMsg where
  hasJobId : Bool
deriving DecidableEq, Repr

/-- A raw queue payload, carrying the outcome `json.loads` gives it:
`none` models a payload that is not valid JSON. -/
structure QueueMsg where
  parsed : Option JobMsg
deriving DecidableEq, Repr

/-- Source: `main` (worker.py 444-477) after the startup checks: `brpop`
destructively takes one message (timeout on an empty queue exits with no
change); an invalid-JSON payload prints and returns before any DB write;
otherwise the job is marked processing (when it has an id) and processed. -/
def worker_main (env : PipeEnv) (queue : List QueueMsg) (rec : JobRecord) :
    List QueueMsg × JobRecord :=
  match queue with
  | [] => ([], rec)
  | msg :: rest =>
    match msg.parsed with
    | none => (rest, rec)
    | some j =>
      (rest,
        (process j.hasJobId env
          (if j.hasJobId then ⟨JobStatus.processing, rec.error_msg, rec.srt_key,
            rec.duration_sec⟩ else rec)).record)

/-- C10: if the dequeued payload is not valid JSON, the worker consumes the
message destructively (the blocking pop removed it and it is not re-queued)
and returns without performing any job-record update — no job transitions to
processing, failed or done, so the job referenced by the lost message stays
in its prior status. -/
theorem invalid_payload_consumed_without_update (env : PipeEnv) (msg : QueueMsg)
    (rest : List QueueMsg) (rec : JobRecord) (h : msg.parsed = none) :
    worker_main env (msg :: rest) rec = (rest, rec) := by
  simp only [worker_main]
  rw [h]

/-- All external steps fine; only the payload is malformed. -/
def envAllOk : PipeEnv :=
  ⟨false, true, true, true, true, true, true, true, true, true, true, true,
    "", "", "out.srt", 130⟩

/-- Witness for C10: one malformed message, a job still queued. -/
theorem invalid_payload_consumed_without_update_witness :
    worker_main envAllOk [⟨none⟩] ⟨JobStatus.queued, none, none, none⟩ =
      ([], ⟨JobStatus.queued, none, none, none⟩) :=
  invalid_payload_consumed_without_update envAllOk ⟨none⟩ [] _ rfl

end MnSaas
